import Mathlib

/-!
# Verification of the zeit-ts cycle/period engine

Shallow embedding of the zeit-ts library (src/zeit.ts, src/user-zeit.ts,
src/database-zeit.ts, src/cycles.ts).  The library delegates civil-calendar
and timezone-offset resolution to Luxon; following the source we model a
Luxon `DateTime` as a UTC instant in epoch milliseconds together with its
zone, where a zone is an abstract pair of total functions
(instant → offset, local wall millis → instant).  Wall-clock fields are
derived from the instant exactly as Luxon derives its cached calendar
fields from `ts + offset`.

The repository's source files contain several concatenated revisions of the
same classes.  The embedding follows the revisions exercised by the current
test-suite (tests/user-zeit-test.ts, tests/cycles-test.ts): the first
`UserZeit` revision (cyclesUntil compares against the midnight of the end
date, cyclesFrom snaps to the nearest cycle start), the validating `Zeit`
factory revision (timezone-marker stripping and invalid-date rejection),
and the single `Cycles` revision.
-/

namespace ZeitTs

/-! ## Milliseconds constants -/

def msPerSecond : Int := 1000

def msPerMinute : Int := 60000

def msPerHour : Int := 3600000

def msPerDay : Int := 86400000

/-! ## Proleptic-Gregorian civil calendar

Luxon performs its calendar arithmetic on proleptic-Gregorian wall-clock
fields.  `dayNumber` counts days from 0001-01-01 (day 0). -/

/-- Leap year, as Luxon's `isLeapYear`. -/
def isLeap (y : Int) : Bool := y % 4 == 0 && (y % 100 != 0 || y % 400 == 0)

/-- Length of month `m` (1..12) in year `y`. -/
def daysInMonth (y : Int) (m : Nat) : Int :=
  match m with
  | 2 => if isLeap y then 29 else 28
  | 4 => 30
  | 6 => 30
  | 9 => 30
  | 11 => 30
  | _ => 31

/-- Days in year `y` strictly before month `m` (1..12). -/
def daysBeforeMonth (y : Int) (m : Nat) : Int :=
  (match m with
   | 1 => 0
   | 2 => 31
   | 3 => 59
   | 4 => 90
   | 5 => 120
   | 6 => 151
   | 7 => 181
   | 8 => 212
   | 9 => 243
   | 10 => 273
   | 11 => 304
   | _ => 334)
  + (if 3 ≤ m ∧ isLeap y then 1 else 0)

/-- Days strictly before year `y` counting from 0001-01-01. -/
def daysBeforeYear (y : Int) : Int :=
  365 * (y - 1) + (y - 1) / 4 - (y - 1) / 100 + (y - 1) / 400

/-- Day number of a civil date, day 0 being 0001-01-01. -/
def dayNumber (y : Int) (m : Nat) (d : Int) : Int :=
  daysBeforeYear y + daysBeforeMonth y m + (d - 1)

/-- Inverse of `dayNumber` (Hinnant's civil-from-days algorithm, shifted to
the 0001-01-01 epoch).  Used to recompute wall-clock fields from an
instant, as Luxon's `tsToObj`. -/
def civilFromDayNumber (n : Int) : Int × Nat × Int :=
  let z := n + 306
  let era := z / 146097
  let doe := z % 146097
  let yoe := (doe - doe / 1460 + doe / 36524 - doe / 146096) / 365
  let doy := doe - (365 * yoe + yoe / 4 - yoe / 100)
  let mp := (5 * doy + 2) / 153
  let d := doy - (153 * mp + 2) / 5 + 1
  let y := yoe + era * 400
  if mp < 10 then (y, (mp + 3).toNat, d) else (y + 1, (mp - 9).toNat, d)

/-! ## Wall-clock fields -/

/-- Wall-clock date-time fields (Luxon's calendar object `c`). -/
structure Wall where
  year : Int
  month : Nat
  day : Int
  hour : Int
  minute : Int
  second : Int
  ms : Int
deriving DecidableEq, Repr

/-- The fields form a real proleptic-Gregorian date-time (Luxon validity). -/
def ValidWall (w : Wall) : Prop :=
  1 ≤ w.year ∧ 1 ≤ w.month ∧ w.month ≤ 12 ∧
  1 ≤ w.day ∧ w.day ≤ daysInMonth w.year w.month ∧
  0 ≤ w.hour ∧ w.hour ≤ 23 ∧ 0 ≤ w.minute ∧ w.minute ≤ 59 ∧
  0 ≤ w.second ∧ w.second ≤ 59 ∧ 0 ≤ w.ms ∧ w.ms ≤ 999

instance (w : Wall) : Decidable (ValidWall w) := by unfold ValidWall; infer_instance

/-- Milliseconds since local midnight. -/
def timeOfDayMs (w : Wall) : Int :=
  w.hour * msPerHour + w.minute * msPerMinute + w.second * msPerSecond + w.ms

/-- Local ("as if UTC") milliseconds of a wall-clock value. -/
def civilMillis (w : Wall) : Int :=
  dayNumber w.year w.month w.day * msPerDay + timeOfDayMs w

/-- Wall-clock fields of a local millisecond count (Luxon `tsToObj`). -/
def fieldsOf (localMs : Int) : Wall :=
  let n := localMs / msPerDay
  let r := localMs % msPerDay
  let ymd := civilFromDayNumber n
  { year := ymd.1, month := ymd.2.1, day := ymd.2.2,
    hour := r / msPerHour, minute := (r % msPerHour) / msPerMinute,
    second := (r % msPerMinute) / msPerSecond, ms := r % msPerSecond }

/-- Linear month index of a wall value (0 = January of year 1). -/
def monthLinearIndex (w : Wall) : Int := 12 * (w.year - 1) + ((w.month : Int) - 1)

/-- Year of a linear month index. -/
def idxYear (idx : Int) : Int := idx / 12 + 1

/-- Month (1..12) of a linear month index. -/
def idxMonth (idx : Int) : Nat := (idx % 12).toNat + 1

/-- Add `k` calendar months, clamping the day-of-month to the target
month's length — Luxon's `plus({months:k})` field arithmetic ("closest
possible date": Jan 31 + 1 month = Feb 29/28). -/
def addMonthsClamp (w : Wall) (k : Nat) : Wall :=
  let idx : Int := monthLinearIndex w + k
  { w with
    year := idxYear idx,
    month := idxMonth idx,
    day := min w.day (daysInMonth (idxYear idx) (idxMonth idx)) }

/-- Zero the time-of-day fields (the wall part of `startOf('day')`). -/
def zeroTime (w : Wall) : Wall :=
  { w with hour := 0, minute := 0, second := 0, ms := 0 }

/-! ## Timezones

The zone engine is an external collaborator (Luxon + the platform tz
database).  A zone is modelled by its instant-offset function and its
local-wall-clock resolution function (covering Luxon's DST gap/overlap
disambiguation).  `resolveWithPref` is the first step of Luxon's
`fixOffset`: when converting wall fields obtained from an existing instant,
the existing offset is tried first. -/

structure Tz where
  base : Int
  offsetAt : Int → Int
  resolveLocal : Int → Int

/-- Resolve local wall millis `lm`, preferring offset `pref` when it is
consistent (Luxon `fixOffset` first guess), otherwise via the zone's
general resolution. -/
def Tz.resolveWithPref (tz : Tz) (pref lm : Int) : Int :=
  if tz.offsetAt (lm - pref) = pref then lm - pref else tz.resolveLocal lm

/-- Well-formedness of a real-world zone: all offsets (including DST and
historical deviations) stay within 2 hours of the zone's base offset. -/
structure Tz.Reasonable (tz : Tz) : Prop where
  offset_close : ∀ m, |tz.offsetAt m - tz.base| ≤ 2 * msPerHour
  resolve_close : ∀ lm, |tz.resolveLocal lm - (lm - tz.base)| ≤ 2 * msPerHour

/-- The UTC zone. -/
def utc : Tz := { base := 0, offsetAt := fun _ => 0, resolveLocal := fun lm => lm }

/-- A fixed-offset zone (offset `off` milliseconds east of UTC). -/
def fixedTz (off : Int) : Tz :=
  { base := off, offsetAt := fun _ => off, resolveLocal := fun lm => lm - off }

/-! ## UserZeit

`UserZeit` wraps a Luxon `DateTime` in the user's zone: an instant plus
the zone; wall fields are derived as Luxon derives its cached fields. -/

structure UserZeit where
  millis : Int
  tz : Tz

def UserZeit.localMillis (u : UserZeit) : Int := u.millis + u.tz.offsetAt u.millis

/-- The wall-clock fields of this instant in its zone. -/
def UserZeit.wall (u : UserZeit) : Wall := fieldsOf u.localMillis

/-- Luxon `plus({months:k})`: calendar-month field arithmetic with day
clamping, re-resolved in the zone preferring the current offset. -/
def UserZeit.plusMonthsRaw (u : UserZeit) (k : Nat) : UserZeit :=
  { millis := u.tz.resolveWithPref (u.tz.offsetAt u.millis) (civilMillis (addMonthsClamp u.wall k)),
    tz := u.tz }

/-- `buildCycle(interval, iteration, base)` from user-zeit.ts: the base
plus `iteration` months (MONTHLY) or years (YEARLY).  Luxon's year
addition equals adding `12 * iteration` months (same month, day clamped). -/
inductive ZeitInterval | MONTHLY | YEARLY
deriving DecidableEq, Repr

def UserZeit.buildCycle (u : UserZeit) (iv : ZeitInterval) (iteration : Nat) : UserZeit :=
  match iv with
  | .MONTHLY => u.plusMonthsRaw iteration
  | .YEARLY => u.plusMonthsRaw (12 * iteration)

/-- Luxon `minus({milliseconds:n})`: exact timeline arithmetic. -/
def UserZeit.minusMillis (u : UserZeit) (n : Int) : UserZeit :=
  { millis := u.millis - n, tz := u.tz }

/-- `setToMidnight()`: `set({hour:0,minute:0,second:0,millisecond:0})` —
zero the wall time fields and re-resolve in the zone (the range checks of
`set` pass for these constant values). -/
def UserZeit.setToMidnight (u : UserZeit) : UserZeit :=
  { millis := u.tz.resolveWithPref (u.tz.offsetAt u.millis) (civilMillis (zeroTime u.wall)),
    tz := u.tz }

/-- Start of the day after this instant's calendar day (used by Luxon's
`endOf('day')`, which is this value minus one millisecond). -/
def UserZeit.startOfNextDay (u : UserZeit) : Int :=
  u.tz.resolveWithPref (u.tz.offsetAt u.millis) (civilMillis (zeroTime u.wall) + msPerDay)

/-- Luxon `hasSame(other, 'day')` for operands in the same zone (the only
way the library uses it): `other` lies inside `this`'s calendar day. -/
def UserZeit.isSameDate (a b : UserZeit) : Prop :=
  a.setToMidnight.millis ≤ b.millis ∧ b.millis ≤ a.startOfNextDay - 1

instance (a b : UserZeit) : Decidable (a.isSameDate b) := by
  unfold UserZeit.isSameDate; infer_instance

/-- `isAfter`: comparison of the underlying instants. -/
def UserZeit.isAfter (a b : UserZeit) : Prop := b.millis < a.millis

/-- `isBefore`: comparison of the underlying instants. -/
def UserZeit.isBefore (a b : UserZeit) : Prop := a.millis < b.millis

/-- `isSameOrAfter`: comparison of the underlying instants. -/
def UserZeit.isSameOrAfter (a b : UserZeit) : Prop := b.millis ≤ a.millis

/-- `isSameOrBefore`: comparison of the underlying instants. -/
def UserZeit.isSameOrBefore (a b : UserZeit) : Prop := a.millis ≤ b.millis

instance (a b : UserZeit) : Decidable (a.isBefore b) := by
  unfold UserZeit.isBefore; infer_instance

instance (a b : UserZeit) : Decidable (a.isSameOrAfter b) := by
  unfold UserZeit.isSameOrAfter; infer_instance

/-! ## DatabaseZeit -/

/-- `DatabaseZeit`: the instant pinned to UTC, remembering the origin user
zone for `toUser()`. -/
structure DatabaseZeit where
  millis : Int
  userTimezone : Tz

/-- `UserZeit.toDatabase()`: `setZone(UTC)` keeps the instant; the user
zone is stored for the way back. -/
def UserZeit.toDatabase (u : UserZeit) : DatabaseZeit :=
  { millis := u.millis, userTimezone := u.tz }

/-- `DatabaseZeit.toUser()`: `setZone(userTimezone)` keeps the instant. -/
def DatabaseZeit.toUser (d : DatabaseZeit) : UserZeit :=
  { millis := d.millis, tz := d.userTimezone }

/-! ## ISO rendering (`toISO`)

Luxon prints the wall fields of the instant in its zone followed by the
numeric offset.  (For a zone named "UTC" Luxon prints `Z` instead of
`+00:00`; the claims checked here never compare across that difference.) -/

def digitChar (n : Int) : Char := Char.ofNat (48 + n.toNat)

def pad2 (n : Int) : List Char := [digitChar (n / 10 % 10), digitChar (n % 10)]

def pad3 (n : Int) : List Char := digitChar (n / 100 % 10) :: pad2 n

def pad4 (n : Int) : List Char := digitChar (n / 1000 % 10) :: pad3 n

def renderOffsetIso (off : Int) : List Char :=
  (if off < 0 then '-' else '+') :: (pad2 (|off| / msPerHour) ++ ':' :: pad2 (|off| % msPerHour / msPerMinute))

def renderWallIso (w : Wall) : List Char :=
  pad4 w.year ++ '-' :: pad2 w.month ++ '-' :: pad2 w.day ++
  'T' :: pad2 w.hour ++ ':' :: pad2 w.minute ++ ':' :: pad2 w.second ++ '.' :: pad3 w.ms

/-- `UserZeit.toISO()`. -/
def UserZeit.toISO (u : UserZeit) : List Char :=
  renderWallIso u.wall ++ renderOffsetIso (u.tz.offsetAt u.millis)

end ZeitTs
namespace ZeitTs

/-! ## Calendar-day difference (Luxon `diff(other, 'days')`)

Luxon computes the whole-day count by stepping the earlier operand forward
by calendar days (wall-clock preserving, re-resolved in its zone) and the
fractional part as the remaining milliseconds over the length of the
partial day. -/

/-- The earlier operand advanced by `k` calendar days (Luxon
`plus({days:k})`: local millis advance by exactly `k` civil days, then the
zone re-resolves, preferring the current offset).  `dayCursor s 0 = s`. -/
def dayCursor (s : UserZeit) (k : Nat) : Int :=
  s.tz.resolveWithPref (s.tz.offsetAt s.millis) (s.localMillis + k * msPerDay)

/-- Number of whole calendar days from `s` forward that stay at or before
`e` (for `s ≤ e`). -/
def wholeDays (s e : UserZeit) : Nat :=
  Nat.findGreatest (fun k => dayCursor s k ≤ e.millis) ((e.millis - s.millis).toNat / 86400000 + 1)

/-- Days from the earlier `s` to the later `e` as an exact fraction
(numerator, denominator): whole calendar days plus the remaining
milliseconds over the length of the final partial day. -/
def rawDiffDays (s e : UserZeit) : Int × Int :=
  let w := wholeDays s e
  let den := dayCursor s (w + 1) - dayCursor s w
  ((w : Int) * den + (e.millis - dayCursor s w), den)

/-- Luxon `a.diff(b, 'days').days` as an exact fraction (negative
numerator when `a` is earlier). -/
def diffDays (a b : UserZeit) : Int × Int :=
  if b.millis ≤ a.millis then rawDiffDays b a
  else (-(rawDiffDays a b).1, (rawDiffDays a b).2)

/-- JavaScript `Math.round` (round half toward positive infinity) of the
fraction `num / den`: for `den > 0` (every real day length),
`⌊num/den + 1/2⌋ = (2*num + den) / (2*den)` with floor division. -/
def jsRound (num den : Int) : Int := (2 * num + den) / (2 * den)

/-! ## Periods and generation (user-zeit.ts) -/

/-- `ZeitPeriod` from zeit.ts. -/
structure ZeitPeriod where
  startsAt : UserZeit
  endsAt : UserZeit
  durationInDays : Int

/-- `buildPeriod(startsAt, endsAt)`:
`durationInDays = Math.round(endsAt.diff(startsAt, 'days').days)`. -/
def UserZeit.buildPeriod (startsAt endsAt : UserZeit) : ZeitPeriod :=
  { startsAt := startsAt, endsAt := endsAt,
    durationInDays := jsRound (diffDays endsAt startsAt).1 (diffDays endsAt startsAt).2 }

/-- `daysBetween(other)`: both operands to midnight in their own zones,
converted to UTC, then the absolute rounded day difference. -/
def UserZeit.daysBetween (u other : UserZeit) : Int :=
  |jsRound (diffDays ⟨u.setToMidnight.millis, utc⟩ ⟨other.setToMidnight.millis, utc⟩).1
    (diffDays ⟨u.setToMidnight.millis, utc⟩ ⟨other.setToMidnight.millis, utc⟩).2|

/-- `buildCycle` with the optional override base (`now ?? this`). -/
def UserZeit.buildCycleOpt (u : UserZeit) (iv : ZeitInterval) (i : Nat) (base : Option UserZeit) : UserZeit :=
  (base.getD u).buildCycle iv i

/-- `cycleStartsAt(interval, iteration, now?)`. -/
def UserZeit.cycleStartsAt (u : UserZeit) (iv : ZeitInterval) (i : Nat) (base : Option UserZeit) : UserZeit :=
  u.buildCycleOpt iv i base

/-- `cycleEndsAt(interval, iteration, startsAt?)`: the next cycle start
minus one millisecond. -/
def UserZeit.cycleEndsAt (u : UserZeit) (iv : ZeitInterval) (i : Nat) (base : Option UserZeit) : UserZeit :=
  (u.buildCycleOpt iv (i + 1) base).minusMillis 1

/-- The period at iteration `i` of a generation run. -/
def UserZeit.periodAt (u : UserZeit) (iv : ZeitInterval) (base : Option UserZeit) (i : Nat) : ZeitPeriod :=
  UserZeit.buildPeriod (u.cycleStartsAt iv i base) (u.cycleEndsAt iv i base)

/-- The `Cycles` collection (cycles.ts): the generated periods in
generation order. -/
structure Cycles where
  periods : List ZeitPeriod

/-- `Cycles.fromPeriods`. -/
def Cycles.fromPeriods (ps : List ZeitPeriod) : Cycles := ⟨ps⟩

/-- `cycles(numberOfCycles, {interval, startZeit?})`: exactly `n` periods
for iterations `0..n-1`. -/
def UserZeit.cycles (u : UserZeit) (n : Nat) (iv : ZeitInterval) (startZeit : Option UserZeit) : Cycles :=
  Cycles.fromPeriods ((List.range n).map (u.periodAt iv startZeit))

/-- The loop of `cyclesUntil`: emit period `i`, stop once
`period.endsAt.isSameOrAfter(endZeit.clone().setToMidnight())`, else
continue with `i + 1`.  The source loop is unbounded (`while (true)`); the
embedding uses explicit fuel and returns `none` when the fuel is too
small. -/
def UserZeit.cyclesUntilAux (u : UserZeit) (iv : ZeitInterval) (target : Int) :
    Nat → Nat → List ZeitPeriod → Option (List ZeitPeriod)
  | 0, _, _ => none
  | fuel + 1, i, acc =>
    if target ≤ (u.periodAt iv none i).endsAt.millis then some (acc ++ [u.periodAt iv none i])
    else u.cyclesUntilAux iv target fuel (i + 1) (acc ++ [u.periodAt iv none i])

/-- `cyclesUntil(endZeit, {interval})` (current revision: the stop target
is `endZeit` set to midnight). -/
def UserZeit.cyclesUntil (u : UserZeit) (endZeit : UserZeit) (iv : ZeitInterval) (fuel : Nat) : Option Cycles :=
  (u.cyclesUntilAux iv endZeit.setToMidnight.millis fuel 0 []).map Cycles.fromPeriods

/-! ## Cycles accessors and lookups (cycles.ts)

JavaScript array indexing out of range yields `undefined` without
raising; the embedding returns `none` for `undefined`. -/

/-- `getPeriods()`. -/
def Cycles.getPeriods (c : Cycles) : List ZeitPeriod := c.periods

/-- `getFirstPeriod()`: `this.periods[0]` (undefined on an empty set). -/
def Cycles.getFirstPeriod (c : Cycles) : Option ZeitPeriod := c.periods.head?

/-- `getLastPeriod()`: `this.periods[this.periods.length - 1]`
(undefined on an empty set). -/
def Cycles.getLastPeriod (c : Cycles) : Option ZeitPeriod := c.periods.getLast?

/-- `getPeriodByIndex(index)`: `this.periods[index]` (undefined when out
of bounds). -/
def Cycles.getPeriodByIndex (c : Cycles) (i : Int) : Option ZeitPeriod :=
  if h : 0 ≤ i ∧ i.toNat < c.periods.length then some (c.periods.get ⟨i.toNat, h.2⟩) else none

/-- `getNumberOfPeriods()`. -/
def Cycles.getNumberOfPeriods (c : Cycles) : Nat := c.periods.length

/-- `findBefore(zeit)`: `this.periods.reverse().find(...)` — JavaScript's
`Array.prototype.reverse` reverses `this.periods` **in place**, so the
call returns the found period (first, in reversed order, ending strictly
before the query instant) together with the mutated collection state. -/
def Cycles.findBefore (c : Cycles) (queryMillis : Int) : Option ZeitPeriod × Cycles :=
  let reversed := c.periods.reverse
  (reversed.find? (fun p => decide (p.endsAt.millis < queryMillis)), ⟨reversed⟩)

/-! ## Relative cycles (user-zeit.ts, current revision)

The claims only exercise these with an explicit `now` argument; the
live-clock default (`getNow()`) is outside the model. -/

/-- `currentCycle(interval, now)`: same-day special case, otherwise the
last period of `cyclesUntil(now)`. -/
def UserZeit.currentCycle (u : UserZeit) (iv : ZeitInterval) (now : UserZeit) (fuel : Nat) : Option ZeitPeriod :=
  if u.isSameDate now then
    some (UserZeit.buildPeriod u ((u.buildCycle iv 1).minusMillis 1))
  else
    (u.cyclesUntil now iv fuel).bind Cycles.getLastPeriod

/-- `nextCycle(interval, now)`: same-day special case, otherwise the last
period of `cyclesUntil(now + one interval)`. -/
def UserZeit.nextCycle (u : UserZeit) (iv : ZeitInterval) (now : UserZeit) (fuel : Nat) : Option ZeitPeriod :=
  if u.isSameDate now then
    some (UserZeit.buildPeriod (u.buildCycle iv 1) (((u.buildCycle iv 1).buildCycle iv 1).minusMillis 1))
  else
    (u.cyclesUntil (now.buildCycle iv 1) iv fuel).bind Cycles.getLastPeriod

/-- `getNearestCycleStart(startZeit, interval)`: the current cycle's start
unless it lies on an earlier calendar day than `startZeit`, in which case
the next cycle's start. -/
def UserZeit.getNearestCycleStart (u : UserZeit) (startZeit : UserZeit) (iv : ZeitInterval) (fuel : Nat) :
    Option UserZeit :=
  (u.currentCycle iv startZeit fuel).bind fun cc =>
    if ¬ cc.startsAt.isSameDate startZeit ∧ cc.startsAt.isBefore startZeit then
      (u.nextCycle iv startZeit fuel).map fun nc => nc.startsAt
    else some cc.startsAt

/-- `cyclesFrom(startZeit, numberOfCycles, {interval})` (current
revision): `cycles` anchored at `getNearestCycleStart(startZeit)`. -/
def UserZeit.cyclesFrom (u : UserZeit) (startZeit : UserZeit) (n : Nat) (iv : ZeitInterval) (fuel : Nat) :
    Option Cycles :=
  (u.getNearestCycleStart startZeit iv fuel).map fun ns => u.cycles n iv (some ns)

/-! ## The Zeit factory (zeit.ts, validating revision)

`fromUser` on a string first strips a trailing timezone marker
(`removeTimezoneInformation`, regex `([+-]\d{2}:*\d{2}|Z)$`), then parses
the remaining wall-clock digits in the bound zone, failing on anything
that is not a real proleptic-Gregorian date-time.  On a platform `Date`
it rejects NaN-backed values, then converts through the bound zone (the
`toISO`/re-parse round trip preserves the instant). -/

def isDigitCh (c : Char) : Bool := '0' ≤ c && c ≤ '9'

/-- Exactly two digits to the end of the string. -/
def lastTwoDigits : List Char → Bool
  | [a, b] => isDigitCh a && isDigitCh b
  | _ => false

/-- Tail of the offset marker after the two hour digits: `:*\d{2}` to the
end of the string (greedy colons, then exactly two digits). -/
def colonsThenTwoDigits : List Char → Bool
  | [] => false
  | a :: rest => if a = ':' then colonsThenTwoDigits rest else lastTwoDigits (a :: rest)

/-- `\d{2}:*\d{2}` to the end of the string. -/
def twoDigitsColons : List Char → Bool
  | a :: b :: rest => isDigitCh a && isDigitCh b && colonsThenTwoDigits rest
  | _ => false

/-- The regex alternatives `[+-]\d{2}:*\d{2}` and `Z`, matching the whole
remaining string (the regex is `$`-anchored). -/
def matchesTzMarker : List Char → Bool
  | [] => false
  | c :: rest =>
    if c = 'Z' then rest.isEmpty
    else if c = '+' ∨ c = '-' then twoDigitsColons rest
    else false

/-- `Zeit.removeTimezoneInformation`: delete the leftmost suffix matching
the marker regex (JavaScript `replace` with a `$`-anchored pattern). -/
def stripTz : List Char → List Char
  | [] => []
  | c :: rest => if matchesTzMarker (c :: rest) then [] else c :: stripTz rest

def digitVal (c : Char) : Int := (c.toNat : Int) - 48

def parse2 : List Char → Option (Int × List Char)
  | a :: b :: rest =>
    if isDigitCh a && isDigitCh b then some (10 * digitVal a + digitVal b, rest) else none
  | _ => none

def parse4 : List Char → Option (Int × List Char)
  | a :: b :: c :: d :: rest =>
    if isDigitCh a && isDigitCh b && isDigitCh c && isDigitCh d then
      some (1000 * digitVal a + 100 * digitVal b + 10 * digitVal c + digitVal d, rest)
    else none
  | _ => none

/-- Fractional seconds (1 to 3 digits) to the end, as milliseconds. -/
def parseFrac : List Char → Option Int
  | [a] => if isDigitCh a then some (100 * digitVal a) else none
  | [a, b] => if isDigitCh a && isDigitCh b then some (100 * digitVal a + 10 * digitVal b) else none
  | [a, b, c] =>
    if isDigitCh a && isDigitCh b && isDigitCh c then
      some (100 * digitVal a + 10 * digitVal b + digitVal c)
    else none
  | _ => none

/-- ISO time part `HH[:mm[:ss[.fff]]]` (hour, minute, second, millis). -/
def parseTime (l : List Char) : Option (Int × Int × Int × Int) :=
  (parse2 l).bind fun hr =>
    match hr.2 with
    | [] => some (hr.1, 0, 0, 0)
    | ':' :: r2 =>
      (parse2 r2).bind fun mr =>
        match mr.2 with
        | [] => some (hr.1, mr.1, 0, 0)
        | ':' :: r4 =>
          (parse2 r4).bind fun sr =>
            match sr.2 with
            | [] => some (hr.1, mr.1, sr.1, 0)
            | '.' :: r6 => (parseFrac r6).map fun f => (hr.1, mr.1, sr.1, f)
            | ',' :: r6 => (parseFrac r6).map fun f => (hr.1, mr.1, sr.1, f)
            | _ => none
        | _ => none
    | _ => none

/-- ISO wall-clock string `YYYY[-MM[-DD[Thh:mm...]]]` to raw fields
(week-date, ordinal-date and basic colon-free forms are not modelled). -/
def parseDateTimeFields (l : List Char) : Option Wall :=
  (parse4 l).bind fun yr =>
    match yr.2 with
    | [] => some ⟨yr.1, 1, 1, 0, 0, 0, 0⟩
    | '-' :: r2 =>
      (parse2 r2).bind fun mr =>
        match mr.2 with
        | [] => some ⟨yr.1, mr.1.toNat, 1, 0, 0, 0, 0⟩
        | '-' :: r4 =>
          (parse2 r4).bind fun dr =>
            match dr.2 with
            | [] => some ⟨yr.1, mr.1.toNat, dr.1, 0, 0, 0, 0⟩
            | 'T' :: r6 =>
              (parseTime r6).map fun t => ⟨yr.1, mr.1.toNat, dr.1, t.1, t.2.1, t.2.2.1, t.2.2.2⟩
            | _ => none
        | _ => none
    | _ => none

/-- Luxon `fromISO` on a wall-clock string: parse, then reject fields that
do not form a real calendar date-time (Luxon invalidity). -/
def parseISO (l : List Char) : Option Wall :=
  (parseDateTimeFields l).bind fun w => if ValidWall w then some w else none

/-- Raw input to `fromUser`: an ISO string or a platform `Date`
(`date none` models a NaN-backed `Date`). -/
inductive ZeitInput
  | str (s : List Char)
  | date (d : Option Int)

/-- The `Zeit` factory bound to a user timezone. -/
structure Zeit where
  timezone : Tz

/-- `Zeit.forTimezone(zone)` (catalog validation is outside the model:
the embedding's `Tz` values are well-formed zones by construction). -/
def Zeit.forTimezone (tz : Tz) : Zeit := ⟨tz⟩

/-- `fromUser(zeit)` (validating revision): strings are stripped of any
timezone marker and their wall-clock digits resolved in the bound zone;
invalid wall-clock fields throw `Invalid date` (`none`); NaN-backed
`Date`s throw (`none`); valid `Date`s keep their instant (the
`toISO`/re-parse round trip in the source preserves it). -/
def Zeit.fromUser (z : Zeit) : ZeitInput → Option UserZeit
  | .str s =>
    (parseISO (stripTz s)).map fun w => ⟨z.timezone.resolveLocal (civilMillis w), z.timezone⟩
  | .date none => none
  | .date (some m) => some ⟨m, z.timezone⟩

/-! ## Concrete fixtures used by witnesses and counterexamples -/

/-- A `UserZeit` in the UTC zone at the given wall-clock time. -/
def atUtc (y : Int) (mo : Nat) (d h mi : Int) : UserZeit :=
  ⟨civilMillis ⟨y, mo, d, h, mi, 0, 0⟩, utc⟩

/-- Three monthly periods covering January–March 2024 (UTC). -/
def janToMarch : Cycles := (atUtc 2024 1 1 0 0).cycles 3 .MONTHLY none

/-- Midnight 2024-01-03 in the UTC zone. -/
def midnightUtcJan3 : UserZeit := atUtc 2024 1 3 0 0

/-- Midnight 2024-01-01 in a fixed UTC+12 zone (the same instant as
2023-12-31T12:00:00Z). -/
def midnightPlus12Jan1 : UserZeit :=
  ⟨civilMillis ⟨2024, 1, 1, 0, 0, 0, 0⟩ - 12 * msPerHour, fixedTz (12 * msPerHour)⟩

end ZeitTs
namespace ZeitTs

/-! ## Zone resolution under `Tz.Reasonable` -/

theorem utc_reasonable : utc.Reasonable := by
  constructor <;> intro m <;> simp [utc, msPerHour]

theorem fixedTz_reasonable (off : Int) : (fixedTz off).Reasonable := by
  constructor <;> intro m <;> simp [fixedTz, msPerHour]

theorem Tz.resolveWithPref_close (tz : Tz) (hR : tz.Reasonable) (m lm : Int) :
    |tz.resolveWithPref (tz.offsetAt m) lm - (lm - tz.base)| ≤ 2 * msPerHour := by
  unfold Tz.resolveWithPref
  split
  · have h := hR.offset_close m
    rw [abs_le] at h ⊢
    omega
  · exact hR.resolve_close lm

/-! ## Structure of generation runs -/

theorem get_of_map_range {α : Type} (f : Nat → α) (m : Nat) (l : List α)
    (hl : l = (List.range m).map f) (i : Nat) (h : i < l.length) :
    l.get ⟨i, h⟩ = f i := by
  subst hl
  simp [List.get_eq_getElem]

theorem cycles_periods_eq (u : UserZeit) (n : Nat) (iv : ZeitInterval) (s : Option UserZeit) :
    (u.cycles n iv s).periods = (List.range n).map (u.periodAt iv s) := rfl

/-- Adjacent periods of one run: `endsAt` is exactly one millisecond
before the next `startsAt`, because both come from the same
`buildCycle(interval, i+1, base)` boundary. -/
theorem periodAt_contiguous (u : UserZeit) (iv : ZeitInterval) (s : Option UserZeit) (i : Nat) :
    (u.periodAt iv s i).endsAt.millis + 1 = (u.periodAt iv s (i + 1)).startsAt.millis := by
  simp [UserZeit.periodAt, UserZeit.buildPeriod, UserZeit.cycleStartsAt, UserZeit.cycleEndsAt,
    UserZeit.minusMillis]

/-- The loop of `cyclesUntil`: a successful run starting at iteration `i`
appends periods `i, i+1, …, i+j`, where `i+j` is the first iteration whose
period ends at or after the target. -/
theorem map_range_succ_shift {α : Type} (f : Nat → α) (n : Nat) :
    (List.range (n + 1)).map f = f 0 :: (List.range n).map (fun t => f (t + 1)) := by
  rw [List.range_succ_eq_map]
  simp [List.map_map, Function.comp_def]

theorem cyclesUntilAux_spec (u : UserZeit) (iv : ZeitInterval) (target : Int) :
    ∀ (fuel i : Nat) (acc ps : List ZeitPeriod),
      u.cyclesUntilAux iv target fuel i acc = some ps →
      ∃ j : Nat,
        ps = acc ++ (List.range (j + 1)).map (fun t => u.periodAt iv none (i + t)) ∧
        (∀ t, t < j → (u.periodAt iv none (i + t)).endsAt.millis < target) ∧
        target ≤ (u.periodAt iv none (i + j)).endsAt.millis := by
  intro fuel
  induction fuel with
  | zero => intro i acc ps h; simp [UserZeit.cyclesUntilAux] at h
  | succ f ih =>
    intro i acc ps h
    rw [UserZeit.cyclesUntilAux] at h
    split at h
    · rename_i hstop
      refine ⟨0, ?_, ?_, ?_⟩
      · simpa using h.symm
      · intro t ht
        omega
      · simpa using hstop
    · rename_i hcont
      obtain ⟨j, hps, hlt, hend⟩ := ih (i + 1) (acc ++ [u.periodAt iv none i]) ps h
      refine ⟨j + 1, ?_, ?_, ?_⟩
      · rw [hps, List.append_assoc]
        congr 1
        rw [map_range_succ_shift (fun t => u.periodAt iv none (i + t)) (j + 1)]
        rw [List.singleton_append]
        refine List.cons_eq_cons.mpr ⟨by norm_num, ?_⟩
        refine List.map_congr_left fun t _ => ?_
        congr 1
        omega
      · intro t ht
        cases t with
        | zero =>
          have hlt0 := lt_of_not_le hcont
          have harg : i + 0 = i := rfl
          rwa [harg]
        | succ t' =>
          have ht' := hlt t' (by omega)
          have harg : i + 1 + t' = i + (t' + 1) := by omega
          rwa [harg] at ht'
      · have harg : i + 1 + j = i + (j + 1) := by omega
        rwa [harg] at hend

/-- A successful `cyclesUntil` run produces the periods for iterations
`0, 1, …, n-1`; only the last reaches the target. -/
theorem cyclesUntil_spec (u endZeit : UserZeit) (iv : ZeitInterval) (fuel : Nat) (c : Cycles)
    (h : u.cyclesUntil endZeit iv fuel = some c) :
    ∃ n : Nat, 0 < n ∧
      c.periods = (List.range n).map (u.periodAt iv none) ∧
      (∀ t, t + 1 < n → (u.periodAt iv none t).endsAt.millis < endZeit.setToMidnight.millis) ∧
      endZeit.setToMidnight.millis ≤ (u.periodAt iv none (n - 1)).endsAt.millis := by
  unfold UserZeit.cyclesUntil at h
  cases haux : u.cyclesUntilAux iv endZeit.setToMidnight.millis fuel 0 [] with
  | none => rw [haux] at h; simp at h
  | some ps =>
    rw [haux] at h
    simp only [Option.map_some'] at h
    obtain ⟨j, hps, hlt, hend⟩ := cyclesUntilAux_spec u iv _ fuel 0 [] ps haux
    refine ⟨j + 1, by omega, ?_, ?_, ?_⟩
    · have hc : Cycles.fromPeriods ps = c := by injection h
      rw [← hc]
      simpa [Cycles.fromPeriods] using hps
    · intro t ht
      have := hlt t (by omega)
      simpa using this
    · have harg : j + 1 - 1 = j := rfl
      rw [harg]
      have harg2 : 0 + j = j := by omega
      rwa [harg2] at hend

/-! ## Claim C1 — contiguity of generated periods -/

/-- C1: for every PeriodSet produced by a generation call (`cycles`,
`cyclesUntil`, `cyclesFrom`), and every index `i` with a successor,
`period[i].endsAt` plus one millisecond equals `period[i+1].startsAt`
(zero gap, zero overlap, at millisecond resolution). -/
theorem C1_contiguity (u : UserZeit) (iv : ZeitInterval) (n : Nat) (startZeit : Option UserZeit)
    (endZeit sz : UserZeit) (fuel : Nat) (c c' : Cycles) (i : Nat) :
    (∀ (h : i + 1 < ((u.cycles n iv startZeit).periods).length),
      ((u.cycles n iv startZeit).periods.get ⟨i, by omega⟩).endsAt.millis + 1 =
        ((u.cycles n iv startZeit).periods.get ⟨i + 1, h⟩).startsAt.millis) ∧
    (u.cyclesUntil endZeit iv fuel = some c →
      ∀ (h : i + 1 < c.periods.length),
      (c.periods.get ⟨i, by omega⟩).endsAt.millis + 1 =
        (c.periods.get ⟨i + 1, h⟩).startsAt.millis) ∧
    (u.cyclesFrom sz n iv fuel = some c' →
      ∀ (h : i + 1 < c'.periods.length),
      (c'.periods.get ⟨i, by omega⟩).endsAt.millis + 1 =
        (c'.periods.get ⟨i + 1, h⟩).startsAt.millis) := by
  refine ⟨?_, ?_, ?_⟩
  · intro h
    rw [get_of_map_range (u.periodAt iv startZeit) n _ (cycles_periods_eq u n iv startZeit),
      get_of_map_range (u.periodAt iv startZeit) n _ (cycles_periods_eq u n iv startZeit)]
    exact periodAt_contiguous u iv startZeit i
  · intro hc h
    obtain ⟨m, -, hperiods, -, -⟩ := cyclesUntil_spec u endZeit iv fuel c hc
    rw [get_of_map_range (u.periodAt iv none) m _ hperiods,
      get_of_map_range (u.periodAt iv none) m _ hperiods]
    exact periodAt_contiguous u iv none i
  · intro hc h
    unfold UserZeit.cyclesFrom at hc
    cases hns : u.getNearestCycleStart sz iv fuel with
    | none => rw [hns] at hc; simp at hc
    | some ns =>
      rw [hns] at hc
      simp only [Option.map_some', Option.some.injEq] at hc
      subst hc
      rw [get_of_map_range (u.periodAt iv (some ns)) n _ (cycles_periods_eq u n iv (some ns)),
        get_of_map_range (u.periodAt iv (some ns)) n _ (cycles_periods_eq u n iv (some ns))]
      exact periodAt_contiguous u iv (some ns) i

/-- Witness for C1 at a concrete input: the anchor 2024-01-30T12:00 UTC,
three monthly cycles, adjacent pair at index 0. -/
theorem C1_contiguity_witness :
    ((((⟨civilMillis ⟨2024, 1, 30, 12, 0, 0, 0⟩, utc⟩ : UserZeit).cycles 3 .MONTHLY
        none).periods.get ⟨0, by decide⟩).endsAt.millis + 1 =
      ((((⟨civilMillis ⟨2024, 1, 30, 12, 0, 0, 0⟩, utc⟩ : UserZeit)).cycles 3 .MONTHLY
        none).periods.get ⟨1, by decide⟩).startsAt.millis) :=
  (C1_contiguity ⟨civilMillis ⟨2024, 1, 30, 12, 0, 0, 0⟩, utc⟩ .MONTHLY 3 none
    ⟨0, utc⟩ ⟨0, utc⟩ 0 ⟨[]⟩ ⟨[]⟩ 0).1 (by decide)

/-! ## Claim C6 — user → database → user round trip -/

/-- C6: converting a `UserZeit` obtained from `fromUser` to its UTC
database form and back preserves the ISO representation:
`fromUser(s).toDatabase().toUser().toISO() = fromUser(s).toISO()`. -/
theorem C6_round_trip (z : Zeit) (s : List Char) :
    (z.fromUser (.str s)).map (fun u => u.toDatabase.toUser.toISO) =
      (z.fromUser (.str s)).map UserZeit.toISO := by
  cases h : z.fromUser (.str s) with
  | none => rfl
  | some u => rfl

end ZeitTs
namespace ZeitTs

/-! ## Calendar arithmetic bounds -/

theorem daysInMonth_bounds (y : Int) (m : Nat) :
    28 ≤ daysInMonth y m ∧ daysInMonth y m ≤ 31 := by
  unfold daysInMonth
  split
  · split <;> omega
  all_goals omega

theorem daysBeforeMonth_succ (y : Int) (m : Nat) (h1 : 1 ≤ m) (h2 : m ≤ 11) :
    daysBeforeMonth y (m + 1) = daysBeforeMonth y m + daysInMonth y m := by
  cases hl : isLeap y <;> interval_cases m <;>
    simp [daysBeforeMonth, daysInMonth, hl]

theorem daysBeforeYear_succ (y : Int) :
    daysBeforeYear (y + 1) = daysBeforeYear y + 365 + (if isLeap y then 1 else 0) := by
  by_cases hl : isLeap y = true
  · rw [if_pos hl]
    unfold isLeap at hl
    simp only [Bool.and_eq_true, beq_iff_eq, Bool.or_eq_true, bne_iff_ne, ne_eq] at hl
    unfold daysBeforeYear
    omega
  · rw [if_neg hl]
    unfold isLeap at hl
    simp only [Bool.and_eq_true, beq_iff_eq, Bool.or_eq_true, bne_iff_ne, ne_eq,
      not_and_or, not_or, not_not] at hl
    unfold daysBeforeYear
    omega

/-- Stepping the linear month index advances the first-of-month day number
by exactly the length of the month being left. -/
theorem firstDay_step (idx : Int) :
    dayNumber (idxYear (idx + 1)) (idxMonth (idx + 1)) 1 =
      dayNumber (idxYear idx) (idxMonth idx) 1 + daysInMonth (idxYear idx) (idxMonth idx) := by
  by_cases hm : idx % 12 = 11
  · have hY : idxYear (idx + 1) = idxYear idx + 1 := by unfold idxYear; omega
    have hM1 : idxMonth (idx + 1) = 1 := by unfold idxMonth; omega
    have hM12 : idxMonth idx = 12 := by unfold idxMonth; omega
    rw [hY, hM1, hM12]
    unfold dayNumber
    rw [daysBeforeYear_succ]
    cases hl : isLeap (idxYear idx) <;> simp [daysBeforeMonth, daysInMonth, hl] <;> omega
  · have hrange : 0 ≤ idx % 12 ∧ idx % 12 < 12 := ⟨Int.emod_nonneg idx (by omega), by omega⟩
    have hY : idxYear (idx + 1) = idxYear idx := by unfold idxYear; omega
    have hM : idxMonth (idx + 1) = idxMonth idx + 1 := by unfold idxMonth; omega
    rw [hY, hM]
    unfold dayNumber
    have h1 : 1 ≤ idxMonth idx := by unfold idxMonth; omega
    have h2 : idxMonth idx ≤ 11 := by unfold idxMonth; omega
    rw [daysBeforeMonth_succ (idxYear idx) (idxMonth idx) h1 h2]
    ring

/-- First-of-month day numbers grow by at least 28 per month. -/
theorem firstDay_le_chain (idx : Int) (j : Nat) :
    dayNumber (idxYear idx) (idxMonth idx) 1 + 28 * j ≤
      dayNumber (idxYear (idx + j)) (idxMonth (idx + j)) 1 := by
  induction j with
  | zero => simp
  | succ t ihj =>
    have hstep := firstDay_step (idx + t)
    have hb := (daysInMonth_bounds (idxYear (idx + t)) (idxMonth (idx + t))).1
    have harg : idx + ((t + 1 : Nat) : Int) = idx + t + 1 := by push_cast; ring
    rw [harg]
    push_cast
    push_cast at ihj
    omega

theorem timeOfDayMs_addMonthsClamp (w : Wall) (k : Nat) :
    timeOfDayMs (addMonthsClamp w k) = timeOfDayMs w := rfl

theorem dayNumber_day_decomp (y : Int) (m : Nat) (d : Int) :
    dayNumber y m d = dayNumber y m 1 + (d - 1) := by
  unfold dayNumber; ring

/-- The clamped civil time of `addMonthsClamp`, split into the
first-of-month day number, the clamped day offset, and the unchanged
time of day. -/
theorem civilMillis_addMonthsClamp (w : Wall) (k : Nat) :
    civilMillis (addMonthsClamp w k) =
      (dayNumber (idxYear (monthLinearIndex w + k)) (idxMonth (monthLinearIndex w + k)) 1 +
          (min w.day
              (daysInMonth (idxYear (monthLinearIndex w + k)) (idxMonth (monthLinearIndex w + k))) -
            1)) * msPerDay +
        timeOfDayMs w := by
  unfold civilMillis addMonthsClamp
  dsimp only
  rw [dayNumber_day_decomp]
  rfl

/-- One more month moves the clamped civil time forward by at least 25
days (a month is at least 28 days; clamping can pull the day-of-month
back by at most 3). -/
theorem civilMillis_addMonths_step (w : Wall) (hd : 1 ≤ w.day) (k : Nat) :
    civilMillis (addMonthsClamp w k) + 25 * msPerDay ≤ civilMillis (addMonthsClamp w (k + 1)) := by
  have hstep := firstDay_step (monthLinearIndex w + k)
  have hb := daysInMonth_bounds (idxYear (monthLinearIndex w + k)) (idxMonth (monthLinearIndex w + k))
  have hb' := daysInMonth_bounds (idxYear (monthLinearIndex w + k + 1))
    (idxMonth (monthLinearIndex w + k + 1))
  rw [civilMillis_addMonthsClamp, civilMillis_addMonthsClamp]
  have harg : monthLinearIndex w + ((k + 1 : Nat) : Int) = monthLinearIndex w + k + 1 := by
    push_cast; ring
  rw [harg]
  simp only [msPerDay]
  omega

/-- Monotone version over any later iteration. -/
theorem civilMillis_addMonths_le (w : Wall) (hd : 1 ≤ w.day) (a b : Nat) (hab : a < b) :
    civilMillis (addMonthsClamp w a) + 25 * msPerDay ≤ civilMillis (addMonthsClamp w b) := by
  obtain ⟨t, rfl⟩ : ∃ t, b = a + 1 + t := ⟨b - a - 1, by omega⟩
  clear hab
  induction t with
  | zero => exact civilMillis_addMonths_step w hd a
  | succ s ihs =>
    have hstep := civilMillis_addMonths_step w hd (a + 1 + s)
    have harg : a + 1 + (s + 1) = a + 1 + s + 1 := by omega
    rw [harg]
    simp only [msPerDay] at *
    omega

/-- Luxon month arithmetic on the timeline: a later iteration lands more
than one millisecond after an earlier one (under a reasonable zone). -/
theorem plusMonthsRaw_gap (a : UserZeit) (hR : a.tz.Reasonable) (hd : 1 ≤ a.wall.day)
    (k1 k2 : Nat) (h : k1 < k2) :
    (a.plusMonthsRaw k1).millis + 1 < (a.plusMonthsRaw k2).millis := by
  have h1 := Tz.resolveWithPref_close a.tz hR a.millis (civilMillis (addMonthsClamp a.wall k1))
  have h2 := Tz.resolveWithPref_close a.tz hR a.millis (civilMillis (addMonthsClamp a.wall k2))
  have hc := civilMillis_addMonths_le a.wall hd k1 k2 h
  unfold UserZeit.plusMonthsRaw
  dsimp only
  rw [abs_le] at h1 h2
  simp only [msPerDay, msPerHour] at h1 h2 hc ⊢
  omega

/-- `dayCursor s 0` is `s` itself (Luxon `plus({days:0})` keeps the
instant: the current offset is consistent by construction). -/
theorem dayCursor_zero (s : UserZeit) : dayCursor s 0 = s.millis := by
  unfold dayCursor Tz.resolveWithPref UserZeit.localMillis
  have harg : s.millis + s.tz.offsetAt s.millis + (0 : Nat) * msPerDay - s.tz.offsetAt s.millis =
      s.millis := by push_cast; ring
  rw [harg]
  simp

theorem dayCursor_close (s : UserZeit) (hR : s.tz.Reasonable) (k : Nat) :
    |dayCursor s k - (s.localMillis + k * msPerDay - s.tz.base)| ≤ 2 * msPerHour :=
  Tz.resolveWithPref_close s.tz hR s.millis (s.localMillis + k * msPerDay)

/-- Consecutive day cursors are strictly increasing: every calendar day
of a reasonable zone is strictly longer than zero milliseconds. -/
theorem dayCursor_succ_gt (s : UserZeit) (hR : s.tz.Reasonable) (k : Nat) :
    dayCursor s k < dayCursor s (k + 1) := by
  have h1 := dayCursor_close s hR k
  have h2 := dayCursor_close s hR (k + 1)
  rw [abs_le] at h1 h2
  have harg : ((k + 1 : Nat) : Int) = (k : Int) + 1 := by push_cast; ring
  rw [harg] at h2
  simp only [msPerDay, msPerHour] at h1 h2
  omega

/-- The whole-day count of a forward diff reaches a cursor at or before
the end instant. -/
theorem wholeDays_reaches (s e : UserZeit) (hse : s.millis ≤ e.millis) :
    dayCursor s (wholeDays s e) ≤ e.millis := by
  unfold wholeDays
  have h0 : (fun k => dayCursor s k ≤ e.millis) 0 := by
    show dayCursor s 0 ≤ e.millis
    rw [dayCursor_zero]
    exact hse
  exact @Nat.findGreatest_spec 0 (fun k => dayCursor s k ≤ e.millis) (fun k => Int.decLe _ _) _
    (Nat.zero_le _) h0

/-- `durationInDays` of a forward pair is non-negative. -/
theorem jsRound_diffDays_nonneg (s e : UserZeit) (hR : s.tz.Reasonable)
    (hse : s.millis ≤ e.millis) :
    0 ≤ jsRound (diffDays e s).1 (diffDays e s).2 := by
  have hd : diffDays e s = rawDiffDays s e := by unfold diffDays; rw [if_pos hse]
  rw [hd]
  unfold rawDiffDays jsRound
  have hr := wholeDays_reaches s e hse
  have hden := dayCursor_succ_gt s hR (wholeDays s e)
  have hw : 0 ≤ ((wholeDays s e : Nat) : Int) * (dayCursor s (wholeDays s e + 1) - dayCursor s (wholeDays s e)) :=
    mul_nonneg (Int.natCast_nonneg _) (by omega)
  dsimp only
  exact Int.ediv_nonneg (by omega) (by omega)

end ZeitTs
namespace ZeitTs

/-! ## Claim C7 — period invariants -/

/-- The invariants claimed for one generated period. -/
theorem periodAt_invariants (u : UserZeit) (iv : ZeitInterval) (base : Option UserZeit)
    (hR : (base.getD u).tz.Reasonable) (hd : 1 ≤ (base.getD u).wall.day) (i : Nat) :
    (u.periodAt iv base i).startsAt.millis < (u.periodAt iv base i).endsAt.millis ∧
    (u.periodAt iv base i).durationInDays =
      jsRound (diffDays (u.periodAt iv base i).endsAt (u.periodAt iv base i).startsAt).1
        (diffDays (u.periodAt iv base i).endsAt (u.periodAt iv base i).startsAt).2 ∧
    0 ≤ (u.periodAt iv base i).durationInDays := by
  have hgap : ((base.getD u).buildCycle iv i).millis + 1 < ((base.getD u).buildCycle iv (i + 1)).millis := by
    cases iv
    · exact plusMonthsRaw_gap (base.getD u) hR hd i (i + 1) (by omega)
    · exact plusMonthsRaw_gap (base.getD u) hR hd (12 * i) (12 * (i + 1)) (by omega)
  have e1 : (u.periodAt iv base i).startsAt = (base.getD u).buildCycle iv i := rfl
  have e2 : (u.periodAt iv base i).endsAt = ((base.getD u).buildCycle iv (i + 1)).minusMillis 1 :=
    rfl
  have hlt : (u.periodAt iv base i).startsAt.millis < (u.periodAt iv base i).endsAt.millis := by
    rw [e1, e2]
    unfold UserZeit.minusMillis
    dsimp only
    omega
  refine ⟨hlt, rfl, ?_⟩
  have htz : ((base.getD u).buildCycle iv i).tz = (base.getD u).tz := by
    cases iv <;> rfl
  refine jsRound_diffDays_nonneg ((u.periodAt iv base i).startsAt)
    ((u.periodAt iv base i).endsAt) ?_ (le_of_lt hlt)
  rw [e1, htz]
  exact hR

/-- C7: every period produced by a generation call satisfies
`startsAt < endsAt` strictly; its `durationInDays` equals the half-up
rounded calendar-day difference between `endsAt` and `startsAt`
(`Math.round(endsAt.diff(startsAt, 'days').days)`); hence
`durationInDays ≥ 0`.  Stated for `cycles` (with optional start
override), `cyclesUntil`, and `cyclesFrom` (whose anchor is the
internally computed nearest cycle start). -/
theorem C7_period_invariants (u : UserZeit) (iv : ZeitInterval) (n : Nat)
    (startZeit : Option UserZeit) (endZeit sz ns : UserZeit) (fuel : Nat) (c c' : Cycles) :
    ((startZeit.getD u).tz.Reasonable → 1 ≤ (startZeit.getD u).wall.day →
      ∀ p ∈ (u.cycles n iv startZeit).periods,
        p.startsAt.millis < p.endsAt.millis ∧
        p.durationInDays =
          jsRound (diffDays p.endsAt p.startsAt).1 (diffDays p.endsAt p.startsAt).2 ∧
        0 ≤ p.durationInDays) ∧
    (u.tz.Reasonable → 1 ≤ u.wall.day → u.cyclesUntil endZeit iv fuel = some c →
      ∀ p ∈ c.periods,
        p.startsAt.millis < p.endsAt.millis ∧
        p.durationInDays =
          jsRound (diffDays p.endsAt p.startsAt).1 (diffDays p.endsAt p.startsAt).2 ∧
        0 ≤ p.durationInDays) ∧
    (u.getNearestCycleStart sz iv fuel = some ns → ns.tz.Reasonable → 1 ≤ ns.wall.day →
      u.cyclesFrom sz n iv fuel = some c' →
      ∀ p ∈ c'.periods,
        p.startsAt.millis < p.endsAt.millis ∧
        p.durationInDays =
          jsRound (diffDays p.endsAt p.startsAt).1 (diffDays p.endsAt p.startsAt).2 ∧
        0 ≤ p.durationInDays) := by
  refine ⟨?_, ?_, ?_⟩
  · intro hR hd p hp
    rw [cycles_periods_eq] at hp
    simp only [List.mem_map, List.mem_range] at hp
    obtain ⟨i, -, rfl⟩ := hp
    exact periodAt_invariants u iv startZeit hR hd i
  · intro hR hd hc p hp
    obtain ⟨m, -, hperiods, -, -⟩ := cyclesUntil_spec u endZeit iv fuel c hc
    rw [hperiods] at hp
    simp only [List.mem_map, List.mem_range] at hp
    obtain ⟨i, -, rfl⟩ := hp
    exact periodAt_invariants u iv none hR hd i
  · intro hns hR hd hc p hp
    unfold UserZeit.cyclesFrom at hc
    rw [hns] at hc
    simp only [Option.map_some', Option.some.injEq] at hc
    subst hc
    rw [cycles_periods_eq] at hp
    simp only [List.mem_map, List.mem_range] at hp
    obtain ⟨i, -, rfl⟩ := hp
    exact periodAt_invariants u iv (some ns) hR hd i

/-- Witness for C7 at a concrete input: anchor 2024-01-30T12:00 UTC,
three monthly cycles, first period (spanning the leap February). -/
theorem C7_period_invariants_witness :
    ((atUtc 2024 1 30 12 0).periodAt .MONTHLY none 0).startsAt.millis <
        ((atUtc 2024 1 30 12 0).periodAt .MONTHLY none 0).endsAt.millis ∧
      ((atUtc 2024 1 30 12 0).periodAt .MONTHLY none 0).durationInDays =
        jsRound
          (diffDays ((atUtc 2024 1 30 12 0).periodAt .MONTHLY none 0).endsAt
              ((atUtc 2024 1 30 12 0).periodAt .MONTHLY none 0).startsAt).1
          (diffDays ((atUtc 2024 1 30 12 0).periodAt .MONTHLY none 0).endsAt
              ((atUtc 2024 1 30 12 0).periodAt .MONTHLY none 0).startsAt).2 ∧
      0 ≤ ((atUtc 2024 1 30 12 0).periodAt .MONTHLY none 0).durationInDays :=
  (C7_period_invariants (atUtc 2024 1 30 12 0) .MONTHLY 3 none (atUtc 2024 1 30 12 0)
      (atUtc 2024 1 30 12 0) (atUtc 2024 1 30 12 0) 0 ⟨[]⟩ ⟨[]⟩).1 utc_reasonable (by decide)
    ((atUtc 2024 1 30 12 0).periodAt .MONTHLY none 0)
    (by rw [cycles_periods_eq]; exact List.mem_map_of_mem _ (by decide))

end ZeitTs
namespace ZeitTs

/-! ## Claim C2 — the stop condition of `cyclesUntil`

The current revision stops when `period.endsAt.isSameOrAfter(endZeit.clone().setToMidnight())`,
i.e., against the *midnight* of the end date, not against `endZeit`
itself as the claim states. -/

/-- C2 counterexample: anchor 2024-01-01T12:00 UTC, end 2024-02-01T15:00
UTC.  The claim demands iteration until some period ends at or after the
end instant; the code stops after one period, whose `endsAt`
(2024-02-01T11:59:59.999) is strictly *before* the end instant. -/
theorem C2_counterexample :
    ((atUtc 2024 1 1 12 0).cyclesUntil (atUtc 2024 2 1 15 0) .MONTHLY 5).map
        (fun c => c.periods.length) = some 1 ∧
    ((atUtc 2024 1 1 12 0).cyclesUntil (atUtc 2024 2 1 15 0) .MONTHLY 5).bind
        (fun c => c.getLastPeriod.map
          (fun p => decide (p.endsAt.millis < (atUtc 2024 2 1 15 0).millis))) = some true := by
  constructor <;> decide

theorem getLast_map_range {α : Type} (f : Nat → α) (n : Nat) (hn : 0 < n) :
    ((List.range n).map f).getLast? = some (f (n - 1)) := by
  rw [List.getLast?_eq_getElem?]
  simp only [List.length_map, List.length_range]
  rw [List.getElem?_map, List.getElem?_range (by omega)]
  rfl

/-- C2 (amended): `cyclesUntil(endZeit, {interval})` emits periods for
iterations `0, 1, 2, …` and stops exactly after the first period whose
`endsAt` is at or after `endZeit` **set to midnight** (the start of
`endZeit`'s calendar day in its zone); that period is the last one of the
returned set. -/
theorem C2_cyclesUntil_stop (u endZeit : UserZeit) (iv : ZeitInterval) (fuel : Nat) (c : Cycles)
    (h : u.cyclesUntil endZeit iv fuel = some c) :
    ∃ n : Nat, 0 < n ∧
      c.periods = (List.range n).map (u.periodAt iv none) ∧
      (∀ t, t + 1 < n → (u.periodAt iv none t).endsAt.millis < endZeit.setToMidnight.millis) ∧
      endZeit.setToMidnight.millis ≤ (u.periodAt iv none (n - 1)).endsAt.millis ∧
      c.getLastPeriod = some (u.periodAt iv none (n - 1)) := by
  obtain ⟨n, hn, hperiods, hlt, hend⟩ := cyclesUntil_spec u endZeit iv fuel c h
  refine ⟨n, hn, hperiods, hlt, hend, ?_⟩
  rw [Cycles.getLastPeriod, hperiods]
  exact getLast_map_range (u.periodAt iv none) n hn

/-- Witness for C2 at a concrete input: anchor 2024-03-01 UTC, end
2024-05-10T12:00 UTC, fuel 10. -/
theorem C2_cyclesUntil_stop_witness :
    (atUtc 2024 3 1 0 0).cyclesUntil (atUtc 2024 5 10 12 0) .MONTHLY 10 =
        some (((atUtc 2024 3 1 0 0).cyclesUntil (atUtc 2024 5 10 12 0) .MONTHLY 10).getD ⟨[]⟩) ∧
      (∃ n : Nat, 0 < n ∧
        (((atUtc 2024 3 1 0 0).cyclesUntil (atUtc 2024 5 10 12 0) .MONTHLY 10).getD
              ⟨[]⟩).periods =
          (List.range n).map ((atUtc 2024 3 1 0 0).periodAt .MONTHLY none) ∧
        (∀ t, t + 1 < n →
          ((atUtc 2024 3 1 0 0).periodAt .MONTHLY none t).endsAt.millis <
            (atUtc 2024 5 10 12 0).setToMidnight.millis) ∧
        (atUtc 2024 5 10 12 0).setToMidnight.millis ≤
          ((atUtc 2024 3 1 0 0).periodAt .MONTHLY none (n - 1)).endsAt.millis ∧
        (((atUtc 2024 3 1 0 0).cyclesUntil (atUtc 2024 5 10 12 0) .MONTHLY 10).getD
              ⟨[]⟩).getLastPeriod =
          some ((atUtc 2024 3 1 0 0).periodAt .MONTHLY none (n - 1))) :=
  ⟨rfl, C2_cyclesUntil_stop (atUtc 2024 3 1 0 0) (atUtc 2024 5 10 12 0) .MONTHLY 10 _ rfl⟩

/-! ## Claim C3 — `cyclesFrom` never fails; it snaps -/

/-- C3 counterexample: anchor 2023-12-24T09:00 UTC, requested start
2023-12-19T09:00 UTC — not a cycle boundary (boundaries fall on the
24th).  The claim demands an `InvalidStartDate` failure; the code instead
snaps to the nearest cycle start (2023-12-24) and returns three periods. -/
theorem C3_counterexample :
    ((atUtc 2023 12 24 9 0).cyclesFrom (atUtc 2023 12 19 9 0) 3 .MONTHLY 10).map
        (fun c => c.periods.map
          (fun p => (p.startsAt.wall.year, p.startsAt.wall.month, p.startsAt.wall.day))) =
      some [(2023, 12, 24), (2024, 1, 24), (2024, 2, 24)] ∧
    ((atUtc 2023 12 24 9 0).getNearestCycleStart (atUtc 2023 12 19 9 0) .MONTHLY 10).map
        (fun ns => decide (ns.isSameDate (atUtc 2023 12 19 9 0))) = some false := by
  constructor <;> decide

/-- C3 (amended): `cyclesFrom(startZeit, n, {interval})` does not
validate and never fails with `InvalidStartDate`: it returns `cycles`
anchored at `getNearestCycleStart(startZeit, interval)` — exactly `n`
periods — and when the current cycle's start (relative to `startZeit`)
already lies on `startZeit`'s calendar day, that boundary is the anchor. -/
theorem C3_cyclesFrom_snaps (u sz : UserZeit) (n : Nat) (iv : ZeitInterval) (fuel : Nat)
    (ns : UserZeit) (cc : ZeitPeriod) :
    (u.getNearestCycleStart sz iv fuel = some ns →
      u.cyclesFrom sz n iv fuel = some (u.cycles n iv (some ns)) ∧
      (u.cycles n iv (some ns)).periods.length = n) ∧
    (u.currentCycle iv sz fuel = some cc → cc.startsAt.isSameDate sz →
      u.getNearestCycleStart sz iv fuel = some cc.startsAt) := by
  constructor
  · intro h
    constructor
    · unfold UserZeit.cyclesFrom
      rw [h]
      rfl
    · rw [cycles_periods_eq]
      simp
  · intro hcc hsame
    unfold UserZeit.getNearestCycleStart
    rw [hcc]
    simp only [Option.some_bind]
    rw [if_neg (fun hcon => hcon.1 hsame)]

/-- Witness for C3 at a concrete input: anchor 2024-03-15T09:00 UTC,
start 2024-05-15T09:00 UTC (a boundary day). -/
theorem C3_cyclesFrom_snaps_witness :
    ((atUtc 2024 3 15 9 0).cyclesFrom (atUtc 2024 5 15 9 0) 3 .MONTHLY 10 =
        some ((atUtc 2024 3 15 9 0).cycles 3 .MONTHLY
          (some (((atUtc 2024 3 15 9 0).getNearestCycleStart (atUtc 2024 5 15 9 0) .MONTHLY
                10).getD ⟨0, utc⟩))) ∧
      ((atUtc 2024 3 15 9 0).cycles 3 .MONTHLY
          (some (((atUtc 2024 3 15 9 0).getNearestCycleStart (atUtc 2024 5 15 9 0) .MONTHLY
                10).getD ⟨0, utc⟩))).periods.length = 3) ∧
    (atUtc 2024 3 15 9 0).getNearestCycleStart (atUtc 2024 3 15 18 0) .MONTHLY 10 =
      some (((atUtc 2024 3 15 9 0).currentCycle .MONTHLY (atUtc 2024 3 15 18 0) 10).getD
          ⟨⟨0, utc⟩, ⟨0, utc⟩, 0⟩).startsAt :=
  ⟨(C3_cyclesFrom_snaps (atUtc 2024 3 15 9 0) (atUtc 2024 5 15 9 0) 3 .MONTHLY 10 _
      ⟨⟨0, utc⟩, ⟨0, utc⟩, 0⟩).1 rfl,
    (C3_cyclesFrom_snaps (atUtc 2024 3 15 9 0) (atUtc 2024 3 15 18 0) 3 .MONTHLY 10 ⟨0, utc⟩
      _).2 rfl (by decide)⟩

end ZeitTs
namespace ZeitTs

/-! ## Claim C4 — timezone markers are stripped and never influence the
instant -/

theorem lastTwoDigits_mem (l : List Char) (h : lastTwoDigits l = true) :
    ∀ c ∈ l, isDigitCh c = true ∨ c = ':' := by
  match l with
  | [] => simp [lastTwoDigits] at h
  | [a] => simp [lastTwoDigits] at h
  | [a, b] =>
    rw [lastTwoDigits, Bool.and_eq_true] at h
    intro c hc
    rcases List.mem_cons.mp hc with hc | hc
    · left
      rw [hc]
      exact h.1
    · left
      rw [List.mem_singleton.mp hc]
      exact h.2
  | a :: b :: d :: rest => simp [lastTwoDigits] at h

theorem colonsThenTwoDigits_mem (l : List Char) (h : colonsThenTwoDigits l = true) :
    ∀ c ∈ l, isDigitCh c = true ∨ c = ':' := by
  induction l with
  | nil => simp [colonsThenTwoDigits] at h
  | cons a rest ih =>
    rw [colonsThenTwoDigits] at h
    by_cases ha : a = ':'
    · rw [if_pos ha] at h
      intro c hc
      rcases List.mem_cons.mp hc with hc | hc
      · right
        rw [hc, ha]
      · exact ih h c hc
    · rw [if_neg ha] at h
      exact lastTwoDigits_mem _ h

theorem twoDigitsColons_mem (l : List Char) (h : twoDigitsColons l = true) :
    ∀ c ∈ l, isDigitCh c = true ∨ c = ':' := by
  match l with
  | [] => simp [twoDigitsColons] at h
  | [a] => simp [twoDigitsColons] at h
  | a :: b :: rest =>
    rw [twoDigitsColons] at h
    rw [Bool.and_eq_true, Bool.and_eq_true] at h
    intro c hc
    rcases List.mem_cons.mp hc with hc | hc
    · left
      rw [hc]
      exact h.1.1
    · rcases List.mem_cons.mp hc with hc | hc
      · left
        rw [hc]
        exact h.1.2
      · exact colonsThenTwoDigits_mem rest h.2 c hc

theorem matchesTzMarker_head (m : List Char) (h : matchesTzMarker m = true) :
    ∃ c rest, m = c :: rest ∧ (c = 'Z' ∨ c = '+' ∨ c = '-') := by
  cases m with
  | nil => simp [matchesTzMarker] at h
  | cons c rest =>
    refine ⟨c, rest, rfl, ?_⟩
    rw [matchesTzMarker] at h
    by_cases h1 : c = 'Z'
    · exact Or.inl h1
    · rw [if_neg h1] at h
      by_cases h2 : c = '+' ∨ c = '-'
      · exact Or.inr h2
      · rw [if_neg h2] at h
        simp at h

/-- A marker cannot match when preceded by anything: the extra characters
would put the marker's leading sign (or `Z`) in a position where the
regex requires a digit or a colon. -/
theorem matchesTzMarker_append_false (c : Char) (p m : List Char)
    (hm : matchesTzMarker m = true) :
    matchesTzMarker (c :: (p ++ m)) = false := by
  obtain ⟨d, m', rfl, hd⟩ := matchesTzMarker_head m hm
  rw [matchesTzMarker]
  by_cases h1 : c = 'Z'
  · rw [if_pos h1]
    simp
  · rw [if_neg h1]
    by_cases h2 : c = '+' ∨ c = '-'
    · rw [if_pos h2]
      cases htd : twoDigitsColons (p ++ d :: m') with
      | false => rfl
      | true =>
        exfalso
        have hmem := twoDigitsColons_mem _ htd d (by simp)
        rcases hd with h | h | h <;> rw [h] at hmem <;> exact absurd hmem (by decide)
    · rw [if_neg h2]

/-- `removeTimezoneInformation` deletes exactly the trailing marker. -/
theorem stripTz_append_marker (w m : List Char) (hm : matchesTzMarker m = true)
    (hw : stripTz w = w) :
    stripTz (w ++ m) = w := by
  induction w with
  | nil =>
    obtain ⟨d, m', rfl, -⟩ := matchesTzMarker_head m hm
    rw [List.nil_append, stripTz, if_pos hm]
  | cons c w' ih =>
    have hw' : stripTz w' = w' := by
      rw [stripTz] at hw
      by_cases hmk : matchesTzMarker (c :: w') = true
      · rw [if_pos hmk] at hw
        exact absurd hw (by simp)
      · rw [if_neg hmk] at hw
        exact (List.cons.injEq _ _ _ _).mp hw |>.2
    rw [List.cons_append, stripTz,
      if_neg (by simp [matchesTzMarker_append_false c w' m hm]), ih hw']

/-- C4: for every input string made of wall-clock digits `w` followed by
an explicit UTC or offset marker (`Z`, `±HH:MM`, or `±HHMM`), `fromUser`
strips the marker and interprets only the wall-clock digits in the
factory's bound zone — the result is identical to parsing `w` alone, so
the marker (and hence the string's own offset) never influences the
resulting instant. -/
theorem C4_marker_stripped (z : Zeit) (w m : List Char) (hm : matchesTzMarker m = true)
    (hw : stripTz w = w) :
    z.fromUser (.str (w ++ m)) = z.fromUser (.str w) := by
  show (parseISO (stripTz (w ++ m))).map _ = (parseISO (stripTz w)).map _
  rw [stripTz_append_marker w m hm hw, hw]

/-- Witness for C4 at a concrete input: the wall-clock string
2024-03-10T01:30:00.000 with marker +05:00 in a UTC+1 zone. -/
theorem C4_marker_stripped_witness :
    matchesTzMarker ("+05:00").data = true ∧
      stripTz ("2024-03-10T01:30:00.000").data = ("2024-03-10T01:30:00.000").data ∧
      (Zeit.forTimezone (fixedTz msPerHour)).fromUser
          (.str (("2024-03-10T01:30:00.000").data ++ ("+05:00").data)) =
        (Zeit.forTimezone (fixedTz msPerHour)).fromUser
          (.str ("2024-03-10T01:30:00.000").data) :=
  ⟨by decide, by decide,
    C4_marker_stripped (Zeit.forTimezone (fixedTz msPerHour)) ("2024-03-10T01:30:00.000").data
      ("+05:00").data (by decide) (by decide)⟩

/-! ## Claim C5 — invalid inputs are rejected -/

theorem parseISO_valid (s : List Char) (w : Wall) (h : parseISO s = some w) : ValidWall w := by
  unfold parseISO at h
  cases hp : parseDateTimeFields s with
  | none => rw [hp] at h; simp at h
  | some w' =>
    rw [hp] at h
    simp only [Option.some_bind] at h
    split at h
    · rename_i hvalid
      cases h
      exact hvalid
    · simp at h

/-- C5: `fromUser` fails (`Invalid date`) on every wall-clock string
whose fields do not form a real proleptic-Gregorian date — in particular
on "2024-13-45T25:00:00" — and on every NaN-backed platform `Date`; any
`UserZeit` it returns comes from a validated wall-clock value, so it
never wraps an invalid instant. -/
theorem C5_invalid_rejected :
    (∀ (z : Zeit) (s : List Char) (u : UserZeit),
      z.fromUser (.str s) = some u →
      ∃ w, parseISO (stripTz s) = some w ∧ ValidWall w ∧
        u = ⟨z.timezone.resolveLocal (civilMillis w), z.timezone⟩) ∧
    (∀ z : Zeit, z.fromUser (.str ("2024-13-45T25:00:00").data) = none) ∧
    (∀ z : Zeit, z.fromUser (.date none) = none) := by
  refine ⟨?_, fun z => rfl, fun z => rfl⟩
  intro z s u h
  show ∃ w, _
  have h' : (parseISO (stripTz s)).map
      (fun w => (⟨z.timezone.resolveLocal (civilMillis w), z.timezone⟩ : UserZeit)) = some u := h
  cases hp : parseISO (stripTz s) with
  | none => rw [hp] at h'; simp at h'
  | some w =>
    rw [hp] at h'
    simp only [Option.map_some', Option.some.injEq] at h'
    exact ⟨w, rfl, parseISO_valid _ _ hp, h'.symm⟩

/-- Witness for C5 at a concrete input: a valid string in the UTC
factory. -/
theorem C5_invalid_rejected_witness :
    ∃ w, parseISO (stripTz ("2024-03-10T01:00:00").data) = some w ∧ ValidWall w ∧
      (((Zeit.forTimezone utc).fromUser (.str ("2024-03-10T01:00:00").data)).getD ⟨0, utc⟩ :
          UserZeit) =
        ⟨utc.resolveLocal (civilMillis w), utc⟩ :=
  C5_invalid_rejected.1 (Zeit.forTimezone utc) ("2024-03-10T01:00:00").data
    (((Zeit.forTimezone utc).fromUser (.str ("2024-03-10T01:00:00").data)).getD ⟨0, utc⟩) rfl

end ZeitTs
namespace ZeitTs

/-! ## Claim C8 — `findBefore` mutates the set's observable order

`findBefore` calls `this.periods.reverse()`; JavaScript's
`Array.prototype.reverse` reverses the array **in place**, so after the
call `getPeriods`/`getFirstPeriod`/`getPeriodByIndex` observe the
periods in reversed order — against the claim and the spec's intent
("treat the scan as non-destructive"). -/

/-- C8, evaluated at the failing input: on the January–March 2024 set,
querying `findBefore` at 2024-02-15T12:00 returns the January period,
but afterwards the first period of the set is the March one and the
whole order is reversed. -/
theorem C8_findBefore_mutates :
    (janToMarch.getPeriods.map (fun p => p.startsAt.wall.month) = [1, 2, 3]) ∧
    ((janToMarch.findBefore (atUtc 2024 2 15 12 0).millis).1.map
        (fun p => p.startsAt.wall.month) = some 1) ∧
    ((janToMarch.findBefore (atUtc 2024 2 15 12 0).millis).2.getPeriods.map
        (fun p => p.startsAt.wall.month) = [3, 2, 1]) ∧
    ((janToMarch.findBefore (atUtc 2024 2 15 12 0).millis).2.getFirstPeriod.map
        (fun p => p.startsAt.wall.month) = some 3) ∧
    ((janToMarch.findBefore (atUtc 2024 2 15 12 0).millis).2.getPeriodByIndex 0).map
        (fun p => p.startsAt.wall.month) = some 3 := by
  refine ⟨by decide, by decide, by decide, by decide, by decide⟩

/-! ## Claim C9 — positional accessors on an empty set

`getFirstPeriod`, `getLastPeriod` and `getPeriodByIndex` are plain array
index accesses: on an empty set (or an out-of-bounds index) JavaScript
indexing yields `undefined` (`none` in the embedding) as a normal return
value; the code has no `IndexOutOfRange`/`EmptyPeriodSet` failure path. -/

/-- C9 counterexample: on the empty PeriodSet every positional accessor
returns `undefined` (`none`) instead of failing with
`IndexOutOfRange`/`EmptyPeriodSet`. -/
theorem C9_counterexample :
    Cycles.getFirstPeriod ⟨[]⟩ = none ∧ Cycles.getLastPeriod ⟨[]⟩ = none ∧
    Cycles.getPeriodByIndex ⟨[]⟩ 0 = none ∧ Cycles.getNumberOfPeriods ⟨[]⟩ = 0 :=
  ⟨rfl, rfl, rfl, rfl⟩

/-- C9 (amended): on an empty PeriodSet the positional accessors return
`undefined` (no period) without raising; `getPeriodByIndex` returns
`undefined` on every out-of-bounds index. -/
theorem C9_accessors_undefined (c : Cycles) (i : Int) :
    (c.periods = [] →
      c.getFirstPeriod = none ∧ c.getLastPeriod = none ∧ c.getNumberOfPeriods = 0) ∧
    ((c.periods.length : Int) ≤ i ∨ i < 0 → c.getPeriodByIndex i = none) := by
  constructor
  · intro h
    refine ⟨?_, ?_, ?_⟩ <;> simp [Cycles.getFirstPeriod, Cycles.getLastPeriod,
      Cycles.getNumberOfPeriods, h]
  · intro h
    unfold Cycles.getPeriodByIndex
    rw [dif_neg]
    omega

/-- Witness for C9 at a concrete input: the empty set and index 5. -/
theorem C9_accessors_undefined_witness :
    ((Cycles.getFirstPeriod ⟨[]⟩ = none ∧ Cycles.getLastPeriod ⟨[]⟩ = none ∧
        Cycles.getNumberOfPeriods ⟨[]⟩ = 0) ∧
      Cycles.getPeriodByIndex ⟨[]⟩ 5 = none) :=
  ⟨(C9_accessors_undefined ⟨[]⟩ 5).1 rfl, (C9_accessors_undefined ⟨[]⟩ 5).2 (by decide)⟩

/-! ## Claim C10 — `daysBetween` -/

/-- The midnight of an instant lies within two hours of the civil
midnight of its calendar day, shifted by the zone's base offset. -/
theorem setToMidnight_close (u : UserZeit) (hR : u.tz.Reasonable) :
    |u.setToMidnight.millis -
      (dayNumber u.wall.year u.wall.month u.wall.day * msPerDay - u.tz.base)| ≤
      2 * msPerHour := by
  have h := Tz.resolveWithPref_close u.tz hR u.millis (civilMillis (zeroTime u.wall))
  have hz : civilMillis (zeroTime u.wall) =
      dayNumber u.wall.year u.wall.month u.wall.day * msPerDay := by
    simp [civilMillis, zeroTime, timeOfDayMs]
  show |u.tz.resolveWithPref (u.tz.offsetAt u.millis) (civilMillis (zeroTime u.wall)) -
      (dayNumber u.wall.year u.wall.month u.wall.day * msPerDay - u.tz.base)| ≤ 2 * msPerHour
  rw [← hz]
  exact h

theorem dayCursor_utc (x : Int) (k : Nat) : dayCursor ⟨x, utc⟩ k = x + k * msPerDay := by
  unfold dayCursor Tz.resolveWithPref UserZeit.localMillis
  simp [utc]

/-- In UTC, the calendar-day diff is exact: days are uniform, so the
fraction telescopes away and the diff is `(A − B) / msPerDay` as an
exact fraction. -/
theorem diffDays_utc (A B : Int) :
    diffDays ⟨A, utc⟩ ⟨B, utc⟩ = (A - B, msPerDay) := by
  unfold diffDays rawDiffDays
  split <;>
    simp only [dayCursor_utc, Prod.mk.injEq] <;>
    constructor <;> push_cast <;> ring

/-- C10 counterexample: operands whose zone offsets differ by exactly
twelve hours.  `midnightUtcJan3` (2024-01-03T00:00Z) and
`midnightPlus12Jan1` (2024-01-01T00:00+12:00) are 2.5 days apart;
JavaScript's half-up `Math.round` makes the two directions differ:
3 one way, 2 the other — `daysBetween` is not symmetric as claimed. -/
theorem C10_counterexample :
    midnightUtcJan3.daysBetween midnightPlus12Jan1 = 3 ∧
    midnightPlus12Jan1.daysBetween midnightUtcJan3 = 2 := by
  constructor <;> decide

/-- C10 (amended): for operands in the *same* zone (under the
well-formedness bound), `daysBetween` equals the absolute whole-day
difference of the two calendar days (each operand normalized to midnight
in its zone and compared in UTC); it is therefore a non-negative integer
and symmetric.  (With zones exactly twelve hours apart the half-up
rounding of `Math.round` breaks symmetry — see the counterexample.) -/
theorem C10_daysBetween (a b : UserZeit) (htz : b.tz = a.tz) (hR : a.tz.Reasonable) :
    a.daysBetween b =
      |dayNumber a.wall.year a.wall.month a.wall.day -
        dayNumber b.wall.year b.wall.month b.wall.day| ∧
    a.daysBetween b = b.daysBetween a ∧
    0 ≤ a.daysBetween b := by
  have hRb : b.tz.Reasonable := by rw [htz]; exact hR
  have formula : ∀ (x y : UserZeit), y.tz = x.tz → x.tz.Reasonable → y.tz.Reasonable →
      x.daysBetween y =
        |dayNumber x.wall.year x.wall.month x.wall.day -
          dayNumber y.wall.year y.wall.month y.wall.day| := by
    intro x y hxy hRx hRy
    have hA := setToMidnight_close x hRx
    have hB := setToMidnight_close y hRy
    rw [hxy] at hB
    unfold UserZeit.daysBetween
    rw [diffDays_utc]
    have hjs : jsRound (x.setToMidnight.millis - y.setToMidnight.millis) msPerDay =
        dayNumber x.wall.year x.wall.month x.wall.day -
          dayNumber y.wall.year y.wall.month y.wall.day := by
      unfold jsRound
      rw [abs_le] at hA hB
      simp only [msPerDay, msPerHour] at hA hB ⊢
      omega
    rw [hjs]
  have h1 := formula a b htz hR hRb
  have h2 := formula b a htz.symm hRb hR
  refine ⟨h1, ?_, ?_⟩
  · rw [h1, h2, abs_sub_comm]
  · rw [h1]
    exact abs_nonneg _

/-- Witness for C10 at a concrete input: two instants on 2024-05-14 and
2024-05-16 in the UTC zone (two days apart). -/
theorem C10_daysBetween_witness :
    (atUtc 2024 5 14 10 34).daysBetween (atUtc 2024 5 16 10 34) =
        |dayNumber (atUtc 2024 5 14 10 34).wall.year (atUtc 2024 5 14 10 34).wall.month
            (atUtc 2024 5 14 10 34).wall.day -
          dayNumber (atUtc 2024 5 16 10 34).wall.year (atUtc 2024 5 16 10 34).wall.month
            (atUtc 2024 5 16 10 34).wall.day| ∧
      (atUtc 2024 5 14 10 34).daysBetween (atUtc 2024 5 16 10 34) =
        (atUtc 2024 5 16 10 34).daysBetween (atUtc 2024 5 14 10 34) ∧
      0 ≤ (atUtc 2024 5 14 10 34).daysBetween (atUtc 2024 5 16 10 34) :=
  C10_daysBetween (atUtc 2024 5 14 10 34) (atUtc 2024 5 16 10 34) rfl utc_reasonable

end ZeitTs
